import Mathlib

/-!
Verification of the room/student record-association and shape-transformation
pipeline (`task_1/parser.py`).

The pipeline reads two JSON collections ("rooms" and "students", each an
in-memory sequence of string-keyed mappings), sorts the students by their
`room` foreign key, groups them into an association index
(`RoomStudentComparerData._prepared_students_data`), attaches each room's
student list under a `students` key (flat JSON shape, or wrapped
`{student: ...}` XML shape), and serializes the result.

Python data is embedded shallowly: a Python value is a `Value` (None,
int, str, list, dict), a Python dict is an insertion-ordered association
list `Dict`, and the dict operations `get` / `update` are modelled with
their CPython semantics (`get` returns None for a missing key; `update`
replaces the value in place for an existing key and appends otherwise).
Fallible Python operations (the sort's `<` comparisons, which raise
`TypeError` on incomparable values) return `Except String`.
-/

/-- A Python value, restricted to the kinds that occur in this pipeline's
data model: `None`, integers, strings, lists and string-keyed dicts. -/
inductive Value where
  | vnull
  | vint (n : Int)
  | vstr (s : String)
  | vlist (l : List Value)
  | vdict (d : List (String × Value))

/-- A Python dict with string keys, as an insertion-ordered association
list (CPython dicts preserve insertion order and have unique keys). -/
abbrev Dict := List (String × Value)

mutual

/-- Decidable equality for `Value` (written by hand because `Value` is a
nested inductive). -/
def Value.decEq : (a b : Value) → Decidable (a = b)
  | .vnull, .vnull => .isTrue rfl
  | .vint m, .vint n =>
      if h : m = n then .isTrue (by rw [h]) else .isFalse (by intro c; injection c; contradiction)
  | .vstr s, .vstr t =>
      if h : s = t then .isTrue (by rw [h]) else .isFalse (by intro c; injection c; contradiction)
  | .vlist l, .vlist m =>
      match Value.decEqList l m with
      | .isTrue h => .isTrue (by rw [h])
      | .isFalse h => .isFalse (by intro c; injection c; contradiction)
  | .vdict d, .vdict e =>
      match Value.decEqDict d e with
      | .isTrue h => .isTrue (by rw [h])
      | .isFalse h => .isFalse (by intro c; injection c; contradiction)
  | .vnull, .vint _ => .isFalse (fun c => Value.noConfusion c)
  | .vnull, .vstr _ => .isFalse (fun c => Value.noConfusion c)
  | .vnull, .vlist _ => .isFalse (fun c => Value.noConfusion c)
  | .vnull, .vdict _ => .isFalse (fun c => Value.noConfusion c)
  | .vint _, .vnull => .isFalse (fun c => Value.noConfusion c)
  | .vint _, .vstr _ => .isFalse (fun c => Value.noConfusion c)
  | .vint _, .vlist _ => .isFalse (fun c => Value.noConfusion c)
  | .vint _, .vdict _ => .isFalse (fun c => Value.noConfusion c)
  | .vstr _, .vnull => .isFalse (fun c => Value.noConfusion c)
  | .vstr _, .vint _ => .isFalse (fun c => Value.noConfusion c)
  | .vstr _, .vlist _ => .isFalse (fun c => Value.noConfusion c)
  | .vstr _, .vdict _ => .isFalse (fun c => Value.noConfusion c)
  | .vlist _, .vnull => .isFalse (fun c => Value.noConfusion c)
  | .vlist _, .vint _ => .isFalse (fun c => Value.noConfusion c)
  | .vlist _, .vstr _ => .isFalse (fun c => Value.noConfusion c)
  | .vlist _, .vdict _ => .isFalse (fun c => Value.noConfusion c)
  | .vdict _, .vnull => .isFalse (fun c => Value.noConfusion c)
  | .vdict _, .vint _ => .isFalse (fun c => Value.noConfusion c)
  | .vdict _, .vstr _ => .isFalse (fun c => Value.noConfusion c)
  | .vdict _, .vlist _ => .isFalse (fun c => Value.noConfusion c)

/-- Decidable equality for lists of `Value`. -/
def Value.decEqList : (a b : List Value) → Decidable (a = b)
  | [], [] => .isTrue rfl
  | [], _ :: _ => .isFalse (fun c => List.noConfusion c)
  | _ :: _, [] => .isFalse (fun c => List.noConfusion c)
  | a :: as, b :: bs =>
      match Value.decEq a b with
      | .isFalse h => .isFalse (by intro c; injection c; contradiction)
      | .isTrue h1 =>
        match Value.decEqList as bs with
        | .isTrue h2 => .isTrue (by rw [h1, h2])
        | .isFalse h => .isFalse (by intro c; injection c; contradiction)

/-- Decidable equality for string-keyed entry lists of `Value`. -/
def Value.decEqDict : (a b : List (String × Value)) → Decidable (a = b)
  | [], [] => .isTrue rfl
  | [], _ :: _ => .isFalse (fun c => List.noConfusion c)
  | _ :: _, [] => .isFalse (fun c => List.noConfusion c)
  | (k1, v1) :: as, (k2, v2) :: bs =>
      if hk : k1 = k2 then
        match Value.decEq v1 v2 with
        | .isFalse h => .isFalse (by intro c; injection c with c1 c2; injection c1; contradiction)
        | .isTrue h1 =>
          match Value.decEqDict as bs with
          | .isTrue h2 => .isTrue (by rw [hk, h1, h2])
          | .isFalse h => .isFalse (by intro c; injection c; contradiction)
      else .isFalse (by intro c; injection c with c1 c2; injection c1; contradiction)

end

instance : DecidableEq Value := Value.decEq

/-- Python `dict.get(key)` without a default: the value stored at `key`,
or `None` when the key is absent (first entry wins; our dicts keep keys
unique, matching CPython). -/
def pyGet (d : Dict) (k : String) : Value :=
  match d with
  | [] => .vnull
  | (k', v) :: rest => if k' = k then v else pyGet rest k

/-- Python `dict.update({key: value})`: replace the value of an existing
key in place (keeping its position), or append a fresh entry at the end. -/
def pyUpdate (d : Dict) (k : String) (v : Value) : Dict :=
  match d with
  | [] => [(k, v)]
  | (k', v') :: rest => if k' = k then (k, v) :: rest else (k', v') :: pyUpdate rest k v

/-- Pure order on `Value`s used by the sort: Python's `<=` between two
ints or between two strs; `false` for every other (incomparable) pair of
kinds. -/
def vLe : Value → Value → Bool
  | .vint a, .vint b => decide (a ≤ b)
  | .vstr a, .vstr b => decide (a ≤ b)
  | _, _ => false

/-- The message of the `TypeError` Python raises when the sort compares
incomparable key values. -/
def typeErrorMsg : String := "TypeError: comparison not supported between the values"

/-- The comparison the sort performs on two sort keys, with Python's
failure behaviour: comparing values of different kinds (or involving
`None`, as happens when a student lacks the `room` key) raises
`TypeError`; two ints or two strs compare normally. -/
def pyLeE (u v : Value) : Except String Bool :=
  match u, v with
  | .vint a, .vint b => .ok (decide (a ≤ b))
  | .vstr a, .vstr b => .ok (decide (a ≤ b))
  | _, _ => .error typeErrorMsg

/-- The sort key of `sorted(students_data, key=lambda student: student.get("room"))`:
the student's `room` value, `None` when the key is absent. -/
def studentRoomKey (s : Dict) : Value := pyGet s "room"

/-- One insertion step of the stable sort by `studentRoomKey`: place `a`
before the first element whose key is `>=` the key of `a`, propagating a
`TypeError` raised by a comparison. -/
def sortInsertE (a : Dict) : List Dict → Except String (List Dict)
  | [] => .ok [a]
  | b :: l => do
      let c ← pyLeE (studentRoomKey a) (studentRoomKey b)
      if c then
        .ok (a :: b :: l)
      else
        let l' ← sortInsertE a l
        .ok (b :: l')

/-- Model of `sorted(students_data, key=lambda student: student.get("room"))`:
Python's sort is stable, so it is modelled by a stable insertion sort with
the same key and the same `TypeError` behaviour on incomparable keys. -/
def pySortedByRoomE : List Dict → Except String (List Dict)
  | [] => .ok []
  | a :: l => do
      let m ← pySortedByRoomE l
      sortInsertE a m

/-- Auxiliary bound used for the termination of `pyGroupby`. -/
theorem length_dropWhile_le' (p : α → Bool) (l : List α) :
    (l.dropWhile p).length ≤ l.length := by
  induction l with
  | nil => simp [List.dropWhile]
  | cons a l ih =>
      by_cases h : p a
      · simp only [List.dropWhile_cons_of_pos h, List.length_cons]
        exact Nat.le_succ_of_le ih
      · simp [List.dropWhile_cons_of_neg h]

/-- Model of `itertools.groupby(self._students_data, key=lambda student: student.get("room"))`:
splits the list into maximal runs of consecutive elements sharing the same
`room` key, yielding `(key, run)` pairs in order. (Written as a structural
right fold that merges the head into the first run when the keys agree;
`pyGroupby_cons_span` below restates it as maximal-run splitting.) -/
def pyGroupby : List Dict → List (Value × List Dict)
  | [] => []
  | a :: l =>
      match pyGroupby l with
      | [] => [(studentRoomKey a, [a])]
      | (k, g) :: rest =>
          if studentRoomKey a = k then (studentRoomKey a, a :: g) :: rest
          else (studentRoomKey a, [a]) :: (k, g) :: rest

/-- Lookup in the dict built by the comprehension
`{room: list(students) for room, students in groupby(...)}`: a later pair
with the same key overwrites an earlier one (CPython assignment order), so
the lookup returns the value of the last pair carrying the key, or `none`
when no pair does. -/
def dictCompLookup (pairs : List (Value × List Dict)) (k : Value) : Option (List Dict) :=
  match pairs with
  | [] => none
  | (k', g) :: rest =>
      match dictCompLookup rest k with
      | some r => some r
      | none => if k' = k then some g else none

/-- The state of `RoomStudentComparerData` after `__init__`: the room
records, the students sorted by `room` key, and `_preset_compared_data`,
the deep copy of the room records that `compare` augments. -/
structure RoomStudentComparerData where
  rooms_data : List Dict
  students_data : List Dict
  preset_compared_data : List Dict

/-- Model of `RoomStudentComparerData.__init__(rooms_data, students_data)`: sorts the
students by their `room` key (propagating the `TypeError` Python raises on
incomparable keys) and deep-copies the rooms into `_preset_compared_data`
(a deep copy of pure values is the value itself). -/
def RoomStudentComparerData.init (rooms_data students_data : List Dict) :
    Except String RoomStudentComparerData := do
  let sorted ← pySortedByRoomE students_data
  .ok ⟨rooms_data, sorted, rooms_data⟩

/-- Model of `RoomStudentComparerData._prepared_students_data`: the association
index, a dict mapping each `room` key value to the list of student records
grouped under it. (The source memoizes this property per instance; the
memoized value equals this recomputation.) -/
def RoomStudentComparerData.prepared_students_data (c : RoomStudentComparerData) :
    List (Value × List Dict) :=
  pyGroupby c.students_data

/-- Model of `self._prepared_students_data.get(k)`: the association-index lookup,
`none` when the room id has no entry. -/
def RoomStudentComparerData.preparedGet (c : RoomStudentComparerData) (k : Value) :
    Option (List Dict) :=
  dictCompLookup c.prepared_students_data k

/-- The value `self._prepared_students_data.get(room.get("id"))` stored
under the `students` key: the full student records of the room's group as
a Python list, or `None` when the room id has no group. -/
def RoomStudentComparerData.studentsLookupValue (c : RoomStudentComparerData)
    (room : Dict) : Value :=
  match c.preparedGet (pyGet room "id") with
  | some g => .vlist (g.map .vdict)
  | none => .vnull

/-- Model of `JSONRoomStudentComparerData.compare`: for every room of
`_preset_compared_data`, `room.update({"students": self._prepared_students_data.get(room.get("id"))})`,
then return `_preset_compared_data`. -/
def JSONcompare (c : RoomStudentComparerData) : List Dict :=
  c.preset_compared_data.map (fun room =>
    pyUpdate room "students" (c.studentsLookupValue room))

/-- Helper for the second `XMLRoomStudentComparerData.compare` pass:
`room.get("students").update({"student": v})` mutates the dict stored under
`students`. After the first pass that value is always a dict; a non-dict
value (unreachable here) is returned unchanged where Python would raise
`AttributeError`. -/
def dictValUpdate (v : Value) (k : String) (nv : Value) : Value :=
  match v with
  | .vdict d => .vdict (pyUpdate d k nv)
  | other => other

/-- Model of `XMLRoomStudentComparerData.compare`: first pass sets
`room.update({"students": {}})` for every room; second pass does
`room.get("students").update({"student": self._prepared_students_data.get(room.get("id"))})`;
then returns `_preset_compared_data`. -/
def XMLcompare (c : RoomStudentComparerData) : List Dict :=
  let pass1 := c.preset_compared_data.map (fun room =>
    pyUpdate room "students" (.vdict []))
  pass1.map (fun room =>
    pyUpdate room "students"
      (dictValUpdate (pyGet room "students") "student" (c.studentsLookupValue room)))

mutual

/-- Modelled from the spec: the textual rendering of a value by the
external encoders (the raw JSON/XML codec primitives are out-of-scope
trusted collaborators); only its existence and the element tagging around
it matter to the claims. -/
def renderValue : Value → String
  | .vnull => "None"
  | .vint n => toString n
  | .vstr s => s
  | .vlist l => renderValueList l
  | .vdict d => renderEntries d

/-- Modelled from the spec: rendering of a list of values, one per line. -/
def renderValueList : List Value → String
  | [] => ""
  | [v] => renderValue v
  | v :: rest => renderValue v ++ "\n" ++ renderValueList rest

/-- Modelled from the spec: rendering of a dict's entries, each value
enclosed in an element named after its key (the dict2xml convention). -/
def renderEntries : List (String × Value) → String
  | [] => ""
  | [(k, v)] => "<" ++ k ++ ">" ++ renderValue v ++ "</" ++ k ++ ">"
  | (k, v) :: rest =>
      "<" ++ k ++ ">" ++ renderValue v ++ "</" ++ k ++ ">" ++ "\n" ++ renderEntries rest

end

/-- Modelled from the spec: `dict2xml(data, wrap="room")` from the external
dict2xml library emits each item of the list enclosed in an element named
by the `wrap` argument. -/
def dict2xml (wrap : String) (data : List Dict) : String :=
  String.intercalate "\n"
    (data.map (fun d => "<" ++ wrap ++ ">" ++ renderEntries d ++ "</" ++ wrap ++ ">"))

/-- Model of `XMLRoomStudentSerializer.serialize`:
`"<rooms>\n" + dict2xml(self._data, wrap="room") + "\n</rooms>"`. -/
def XMLRoomStudentSerializer.serialize (data : List Dict) : String :=
  "<rooms>\n" ++ dict2xml "room" data ++ "\n</rooms>"

/-- Model of `JSONRoomStudentSerializer.serialize`: `json.dumps(self._data)`; the
JSON codec is a trusted external collaborator, modelled as an opaque-but-
concrete rendering of the (list-of-dicts) value. -/
def JSONRoomStudentSerializer.serialize (data : List Dict) : String :=
  renderValue (.vlist (data.map .vdict))

/-- Model of `RoomStudentOutputFormat.__supported_output_formats`. -/
def supported_output_formats : List String := ["json", "xml"]

/-- Model of `RoomStudentOutputFormat.__set__`: accept a supported output format,
raise `ValueError` for anything else. -/
def RoomStudentOutputFormat.set (value : String) : Except String String :=
  if value ∈ supported_output_formats then .ok value
  else .error ("Unknown output format '" ++ value ++ "'. Use json or xml.")

/-- Model of `RoomStudentFileFactory` after `__init__`: assigning
`self._output_format = output_format` runs the validating descriptor
`RoomStudentOutputFormat.__set__`, so construction fails for an
unsupported format. -/
structure RoomStudentFileFactory where
  output_format : String
  input_format : String

/-- Model of `RoomStudentFileFactory.__init__(output_format, input_format="json")`. -/
def RoomStudentFileFactory.init (output_format : String) (input_format : String) :
    Except String RoomStudentFileFactory := do
  let f ← RoomStudentOutputFormat.set output_format
  .ok ⟨f, input_format⟩

/-- Model of `RoomStudentFileHandler` after `__init__`: the factory has been built
(validating the output format); the input paths are stored. No file is
touched during construction — reads happen lazily in the `_rooms_data` /
`_students_data` properties. -/
structure RoomStudentFileHandler where
  output_format : String
  path_to_rooms : String
  path_to_students : String

/-- Model of `RoomStudentFileHandler.__init__(path_to_rooms, path_to_students, output_format)`. -/
def RoomStudentFileHandler.init (path_to_rooms path_to_students output_format : String) :
    Except String RoomStudentFileHandler := do
  let _factory ← RoomStudentFileFactory.init output_format "json"
  .ok ⟨output_format, path_to_rooms, path_to_students⟩

/-- The filesystem as seen through the trusted JSON input codec: each path
optionally holds an already-decoded list of records. -/
def FileSystem := String → Option (List Dict)

/-- Model of `JSONInputDataConverter(path).get_data()`: read and decode the file at
`path`, failing when it does not exist. -/
def getData (fs : FileSystem) (path : String) : Except String (List Dict) :=
  match fs path with
  | some d => .ok d
  | none => .error ("'" ++ path ++ "' is not a file or does not exist.")

/-- Model of `RoomStudentFileHandler.write_output_file` (the `__call__` path):
construct the handler (validating the format), then read the two inputs,
compare, and serialize. Returns the serialized string that would be
written to the output file. -/
def writeOutputFile (fs : FileSystem)
    (path_to_rooms path_to_students output_format : String) :
    Except String String := do
  let h ← RoomStudentFileHandler.init path_to_rooms path_to_students output_format
  let rooms ← getData fs h.path_to_rooms
  let students ← getData fs h.path_to_students
  let c ← RoomStudentComparerData.init rooms students
  if h.output_format = "json" then
    .ok (JSONRoomStudentSerializer.serialize (JSONcompare c))
  else
    .ok (XMLRoomStudentSerializer.serialize (XMLcompare c))

/-- The order the sort establishes between elements: an earlier element's
`room` key is `vLe`-below a later one's. -/
def vLeKey (x y : Dict) : Prop := vLe (studentRoomKey x) (studentRoomKey y) = true

/-- The association value described by the specification's
characterization of the transform: the records of the input student
sequence whose `room` equals `k`, in input (encounter) order, as a Python
list — or `None` when there are none (what `dict.get` yields for a room
with no group). -/
def assocValue (students : List Dict) (k : Value) : Value :=
  if students.filter (fun d => studentRoomKey d = k) = [] then .vnull
  else .vlist ((students.filter (fun d => studentRoomKey d = k)).map .vdict)

/-- The `{id, name}` projection of a student record that the spec
describes (and that the transform does **not** apply). -/
def projIdName (d : Dict) : Dict :=
  [("id", pyGet d "id"), ("name", pyGet d "name")]

/-- The inner association of the wrapped (XML) shape: the value stored
under `students.student`, `None` when `students` is not a dict. -/
def wrappedStudentOf (r : Dict) : Value :=
  match pyGet r "students" with
  | .vdict d => pyGet d "student"
  | _ => .vnull

/-- A student record is a member of a room's attached association when the
room's `students` value is a list containing the student's record. -/
def containsStudent (r : Dict) (s : Dict) : Prop :=
  ∃ l, pyGet r "students" = Value.vlist l ∧ Value.vdict s ∈ l

/-- Example student record: Alice, in room 1. -/
def exAlice : Dict := [("id", .vint 10), ("name", .vstr "Alice"), ("room", .vint 1)]

/-- Example student record: Bob, in room 2. -/
def exBob : Dict := [("id", .vint 11), ("name", .vstr "Bob"), ("room", .vint 2)]

/-- Example student record: Carl, in room 1. -/
def exCarl : Dict := [("id", .vint 12), ("name", .vstr "Carl"), ("room", .vint 1)]

/-- Example student record lacking the `room` key. -/
def exNoRoom : Dict := [("id", .vint 13), ("name", .vstr "Dana")]

/-- Example rooms: room 1 "Math" and room 2 "Physics". -/
def exRooms : List Dict :=
  [[("id", .vint 1), ("name", .vstr "Math")],
   [("id", .vint 2), ("name", .vstr "Physics")]]

/-- Example input with a single student (room 2 has no students). -/
def exStudents : List Dict := [exAlice]

/-- Example input with three students in encounter order Alice, Bob, Carl
(rooms interleaved, as in the spec's worked example). -/
def exStudents3 : List Dict := [exAlice, exBob, exCarl]

/-- The comparer state `__init__` builds from `exRooms`/`exStudents`. -/
def exComparer : RoomStudentComparerData := ⟨exRooms, [exAlice], exRooms⟩

/-- The comparer state `__init__` builds from `exRooms`/`exStudents3`
(the stable sort puts Alice before Carl, both before Bob... in key order
1, 1, 2). -/
def exComparer3 : RoomStudentComparerData :=
  ⟨exRooms, [exAlice, exCarl, exBob], exRooms⟩

/-!
Heap model of the comparer, used for the frame claim: in Python the room
records are shared mutable dict objects, `__init__` deep-copies them
(`copy.deepcopy(rooms_data)`) into `_preset_compared_data`, and `compare`
mutates the copies with `room.update(...)`. The heap maps addresses to
dict contents; room records are passed by address.
-/

/-- A heap of Python dict objects: contents by address, plus the next
fresh address. -/
structure Heap where
  mem : Nat → Dict
  next : Nat

/-- Overwrite the dict object at address `a` (what `room.update` does to
the object in place). -/
def Heap.write (h : Heap) (a : Nat) (d : Dict) : Heap :=
  ⟨fun x => if x = a then d else h.mem x, h.next⟩

/-- Allocate a fresh dict object. -/
def Heap.alloc (h : Heap) (d : Dict) : Heap × Nat :=
  (⟨fun x => if x = h.next then d else h.mem x, h.next + 1⟩, h.next)

/-- Model of `copy.deepcopy(rooms_data)`: allocate a fresh copy of every room dict,
returning the new addresses in order. -/
def deepcopy (h : Heap) (addrs : List Nat) : Heap × List Nat :=
  match addrs with
  | [] => (h, [])
  | a :: rest =>
      let p := deepcopy (h.alloc (h.mem a)).1 rest
      (p.1, (h.alloc (h.mem a)).2 :: p.2)

/-- Heap-level `RoomStudentComparerData` state: room records by address,
sorted students by value, and the addresses of the deep-copied rooms. -/
structure ComparerH where
  rooms_data : List Nat
  students_data : List Dict
  preset_compared_data : List Nat

/-- Heap-level `RoomStudentComparerData.__init__`: sort the students,
deep-copy the room objects. -/
def ComparerH.init (h : Heap) (roomAddrs : List Nat) (students : List Dict) :
    Except String (Heap × ComparerH) := do
  let sorted ← pySortedByRoomE students
  .ok ((deepcopy h roomAddrs).1, ⟨roomAddrs, sorted, (deepcopy h roomAddrs).2⟩)

/-- Heap-level association-index lookup (same dict as the pure model). -/
def ComparerH.preparedGet (c : ComparerH) (k : Value) : Option (List Dict) :=
  dictCompLookup (pyGroupby c.students_data) k

/-- Heap-level `students` value for one room record. -/
def ComparerH.studentsLookupValue (c : ComparerH) (room : Dict) : Value :=
  match c.preparedGet (pyGet room "id") with
  | some g => .vlist (g.map .vdict)
  | none => .vnull

/-- Heap-level `JSONRoomStudentComparerData.compare`: mutate each dict of
`_preset_compared_data` in place with `room.update({"students": ...})`. -/
def jsonCompareH (h : Heap) (c : ComparerH) : Heap :=
  c.preset_compared_data.foldl
    (fun h a => h.write a (pyUpdate (h.mem a) "students" (c.studentsLookupValue (h.mem a)))) h

/-- Heap-level `XMLRoomStudentComparerData.compare`: first pass sets
`students` to `{}` on every preset room object, second pass stores the
wrapped `{"student": ...}` association. -/
def xmlCompareH (h : Heap) (c : ComparerH) : Heap :=
  let h1 := c.preset_compared_data.foldl
    (fun h a => h.write a (pyUpdate (h.mem a) "students" (.vdict []))) h
  c.preset_compared_data.foldl
    (fun h a => h.write a (pyUpdate (h.mem a) "students"
      (dictValUpdate (pyGet (h.mem a) "students") "student"
        (c.studentsLookupValue (h.mem a))))) h1

/-- A two-object example heap holding the two example rooms at addresses
0 and 1, with 2 the next fresh address. -/
def exHeap : Heap :=
  ⟨fun a => if a = 0 then [("id", .vint 1), ("name", .vstr "Math")]
    else if a = 1 then [("id", .vint 2), ("name", .vstr "Physics")]
    else [], 2⟩

/-! Lemmas about the dict primitives. -/

theorem pyGet_pyUpdate_same (d : Dict) (k : String) (v : Value) :
    pyGet (pyUpdate d k v) k = v := by
  induction d with
  | nil => simp [pyUpdate, pyGet]
  | cons e rest ih =>
      obtain ⟨k', v'⟩ := e
      by_cases h : k' = k
      · simp [pyUpdate, pyGet, h]
      · simp [pyUpdate, pyGet, h, ih]

theorem pyGet_pyUpdate_ne (d : Dict) (k k' : String) (v : Value) (hne : k' ≠ k) :
    pyGet (pyUpdate d k' v) k = pyGet d k := by
  induction d with
  | nil => simp [pyUpdate, pyGet, hne]
  | cons e rest ih =>
      obtain ⟨k'', v''⟩ := e
      by_cases h : k'' = k'
      · subst h
        simp only [pyUpdate, if_pos rfl, pyGet, if_neg hne]
      · by_cases h2 : k'' = k
        · subst h2
          simp [pyUpdate, pyGet, h, Ne.symm hne]
        · simp only [pyUpdate, if_neg h, pyGet, if_neg h2, ih]

/-! Lemmas about the value order used by the sort. -/

theorem vLe_trans {u v w : Value} (h1 : vLe u v = true) (h2 : vLe v w = true) :
    vLe u w = true := by
  cases u <;> cases v <;> simp [vLe] at h1 <;> cases w <;> simp [vLe] at h2 ⊢
  · omega
  · exact le_trans h1 h2

theorem vLe_antisymm {u v : Value} (h1 : vLe u v = true) (h2 : vLe v u = true) :
    u = v := by
  cases u <;> cases v <;> simp [vLe] at h1 h2 ⊢
  · omega
  · exact String.ext (le_antisymm h1 h2)

theorem pyLeE_ok_vLe {u v : Value} {c : Bool} (h : pyLeE u v = .ok c) :
    c = vLe u v := by
  cases u <;> cases v <;> simp [pyLeE, vLe] at h ⊢ <;> exact h.symm

theorem pyLeE_ok_false_rev {u v : Value} (h : pyLeE u v = .ok false) :
    vLe v u = true := by
  cases u <;> cases v <;> simp [pyLeE, vLe] at h ⊢
  · omega
  · exact le_of_lt h

theorem pyLeE_ok_false_ne {u v : Value} (h : pyLeE u v = .ok false) :
    v ≠ u := by
  cases u <;> cases v <;> simp [pyLeE, vLe] at h ⊢
  · omega
  · intro hc
    rw [hc] at h
    exact lt_irrefl _ h

theorem except_bind_ok {α β : Type} (a : α) (f : α → Except String β) :
    (Except.ok a >>= f) = f a := rfl

theorem except_bind_error {α β : Type} (e : String) (f : α → Except String β) :
    ((Except.error e : Except String α) >>= f) = .error e := rfl

theorem pyLeE_error_msg {u v : Value} {e : String} (h : pyLeE u v = .error e) :
    e = typeErrorMsg := by
  cases u <;> cases v <;> simp [pyLeE] at h <;> exact h.symm

theorem sortInsertE_mem {a : Dict} {m m' : List Dict} (h : sortInsertE a m = .ok m') :
    ∀ x ∈ m', x = a ∨ x ∈ m := by
  induction m generalizing m' with
  | nil =>
      simp only [sortInsertE, Except.ok.injEq] at h
      subst h
      simp
  | cons b l ih =>
      rw [sortInsertE] at h
      cases hc : pyLeE (studentRoomKey a) (studentRoomKey b) with
      | error e => rw [hc, except_bind_error] at h; exact absurd h (by simp)
      | ok c =>
          rw [hc, except_bind_ok] at h
          cases c with
          | true =>
              simp only [if_true, Except.ok.injEq] at h
              subst h
              intro x hx
              rcases List.mem_cons.mp hx with rfl | hx
              · exact Or.inl rfl
              · exact Or.inr hx
          | false =>
              simp only [Bool.false_eq_true, if_false] at h
              cases hrec : sortInsertE a l with
              | error e => rw [hrec, except_bind_error] at h; exact absurd h (by simp)
              | ok l' =>
                  rw [hrec, except_bind_ok] at h
                  simp only [Except.ok.injEq] at h
                  subst h
                  intro x hx
                  rcases List.mem_cons.mp hx with rfl | hx
                  · exact Or.inr (List.mem_cons_self _ _)
                  · rcases ih hrec x hx with h1 | h1
                    · exact Or.inl h1
                    · exact Or.inr (List.mem_cons_of_mem _ h1)

theorem sortInsertE_filter {a : Dict} {m m' : List Dict} (k : Value)
    (h : sortInsertE a m = .ok m') :
    m'.filter (fun d => studentRoomKey d = k)
      = (if studentRoomKey a = k then [a] else [])
          ++ m.filter (fun d => studentRoomKey d = k) := by
  induction m generalizing m' with
  | nil =>
      simp only [sortInsertE, Except.ok.injEq] at h
      subst h
      by_cases hk : studentRoomKey a = k <;> simp [hk, List.filter]
  | cons b l ih =>
      rw [sortInsertE] at h
      cases hc : pyLeE (studentRoomKey a) (studentRoomKey b) with
      | error e => rw [hc, except_bind_error] at h; exact absurd h (by simp)
      | ok c =>
          rw [hc, except_bind_ok] at h
          cases c with
          | true =>
              simp only [if_true, Except.ok.injEq] at h
              subst h
              by_cases hk : studentRoomKey a = k <;> simp [hk, List.filter_cons]
          | false =>
              simp only [Bool.false_eq_true, if_false] at h
              cases hrec : sortInsertE a l with
              | error e => rw [hrec, except_bind_error] at h; exact absurd h (by simp)
              | ok l' =>
                  rw [hrec, except_bind_ok] at h
                  simp only [Except.ok.injEq] at h
                  subst h
                  have hba : studentRoomKey b ≠ studentRoomKey a := pyLeE_ok_false_ne hc
                  by_cases hk : studentRoomKey a = k
                  · have hbk : ¬ (studentRoomKey b = k) := by rw [← hk]; exact hba
                    simp [hk, List.filter_cons, hbk, ih hrec]
                  · by_cases hbk : studentRoomKey b = k <;>
                      simp [hk, hbk, List.filter_cons, ih hrec]

theorem pySortedByRoomE_filter {l m : List Dict} (k : Value)
    (h : pySortedByRoomE l = .ok m) :
    m.filter (fun d => studentRoomKey d = k) = l.filter (fun d => studentRoomKey d = k) := by
  induction l generalizing m with
  | nil =>
      simp only [pySortedByRoomE, Except.ok.injEq] at h
      subst h
      rfl
  | cons a l ih =>
      rw [pySortedByRoomE] at h
      cases hrec : pySortedByRoomE l with
      | error e => rw [hrec, except_bind_error] at h; exact absurd h (by simp)
      | ok m1 =>
          rw [hrec, except_bind_ok] at h
          rw [sortInsertE_filter k h, ih hrec, List.filter_cons]
          by_cases hk : studentRoomKey a = k <;> simp [hk]

theorem sortInsertE_pairwise {a : Dict} {m m' : List Dict}
    (hp : m.Pairwise vLeKey) (h : sortInsertE a m = .ok m') :
    m'.Pairwise vLeKey := by
  induction m generalizing m' with
  | nil =>
      simp only [sortInsertE, Except.ok.injEq] at h
      subst h
      simp
  | cons b l ih =>
      rw [sortInsertE] at h
      rcases hp with - | ⟨hb, hp⟩
      cases hc : pyLeE (studentRoomKey a) (studentRoomKey b) with
      | error e => rw [hc, except_bind_error] at h; exact absurd h (by simp)
      | ok c =>
          rw [hc, except_bind_ok] at h
          cases c with
          | true =>
              simp only [if_true, Except.ok.injEq] at h
              subst h
              have hab : vLeKey a b := (pyLeE_ok_vLe hc).symm
              refine List.Pairwise.cons ?_ (List.Pairwise.cons hb hp)
              intro y hy
              rcases List.mem_cons.mp hy with rfl | hy
              · exact hab
              · exact vLe_trans hab (hb y hy)
          | false =>
              simp only [Bool.false_eq_true, if_false] at h
              cases hrec : sortInsertE a l with
              | error e => rw [hrec, except_bind_error] at h; exact absurd h (by simp)
              | ok l' =>
                  rw [hrec, except_bind_ok] at h
                  simp only [Except.ok.injEq] at h
                  subst h
                  refine List.Pairwise.cons ?_ (ih hp hrec)
                  intro y hy
                  rcases sortInsertE_mem hrec y hy with h1 | h1
                  · subst h1
                    exact pyLeE_ok_false_rev hc
                  · exact hb y h1

theorem pySortedByRoomE_pairwise {l m : List Dict} (h : pySortedByRoomE l = .ok m) :
    m.Pairwise vLeKey := by
  induction l generalizing m with
  | nil =>
      simp only [pySortedByRoomE, Except.ok.injEq] at h
      subst h
      simp
  | cons a l ih =>
      rw [pySortedByRoomE] at h
      cases hrec : pySortedByRoomE l with
      | error e => rw [hrec, except_bind_error] at h; exact absurd h (by simp)
      | ok m1 =>
          rw [hrec, except_bind_ok] at h
          exact sortInsertE_pairwise (ih hrec) h

theorem sortInsertE_ok_or_error (a : Dict) (m : List Dict) :
    (∃ m', sortInsertE a m = .ok m') ∨ sortInsertE a m = .error typeErrorMsg := by
  induction m with
  | nil => exact Or.inl ⟨[a], rfl⟩
  | cons b l ih =>
      rw [sortInsertE]
      cases hc : pyLeE (studentRoomKey a) (studentRoomKey b) with
      | error e =>
          right
          rw [except_bind_error, pyLeE_error_msg hc]
      | ok c =>
          rw [except_bind_ok]
          cases c with
          | true => exact Or.inl ⟨a :: b :: l, by simp⟩
          | false =>
              simp only [Bool.false_eq_true, if_false]
              rcases ih with ⟨l', hl'⟩ | herr
              · exact Or.inl ⟨b :: l', by rw [hl', except_bind_ok]⟩
              · right
                rw [herr, except_bind_error]

theorem pySortedByRoomE_ok_or_error (l : List Dict) :
    (∃ m, pySortedByRoomE l = .ok m) ∨ pySortedByRoomE l = .error typeErrorMsg := by
  induction l with
  | nil => exact Or.inl ⟨[], rfl⟩
  | cons a l ih =>
      rw [pySortedByRoomE]
      rcases ih with ⟨m, hm⟩ | herr
      · rw [hm, except_bind_ok]
        exact sortInsertE_ok_or_error a m
      · right
        rw [herr, except_bind_error]

theorem dropWhileKeyNe (a : Dict) (l : List Dict) :
    (a :: l).Pairwise vLeKey →
    ∀ y ∈ l.dropWhile (fun d => studentRoomKey d = studentRoomKey a),
      ¬ (studentRoomKey y = studentRoomKey a) := by
  induction l with
  | nil => simp
  | cons b l ih =>
      intro hp
      rcases hp with - | ⟨ha, hp2⟩
      have hb : ∀ y ∈ l, vLeKey b y := by
        rcases hp2 with - | ⟨hb, _⟩
        exact hb
      have hp3 : l.Pairwise vLeKey := by
        rcases hp2 with - | ⟨_, hp3⟩
        exact hp3
      by_cases hba : studentRoomKey b = studentRoomKey a
      · rw [List.dropWhile_cons_of_pos (by simpa using hba)]
        apply ih
        exact List.Pairwise.cons (fun y hy => ha y (List.mem_cons_of_mem _ hy)) hp3
      · rw [List.dropWhile_cons_of_neg (by simpa using hba)]
        intro y hy
        rcases List.mem_cons.mp hy with rfl | hy2
        · exact hba
        · intro hya
          have h1 : vLe (studentRoomKey a) (studentRoomKey b) = true :=
            ha b (List.mem_cons_self _ _)
          have h2 : vLe (studentRoomKey b) (studentRoomKey y) = true := hb y hy2
          rw [hya] at h2
          exact hba (vLe_antisymm h2 h1)

theorem pyGroupby_cons_span (t : List Dict) :
    ∀ (a : Dict), pyGroupby (a :: t)
      = (studentRoomKey a,
          a :: t.takeWhile (fun d => studentRoomKey d = studentRoomKey a))
        :: pyGroupby (t.dropWhile (fun d => studentRoomKey d = studentRoomKey a)) := by
  induction t with
  | nil => intro a; simp [pyGroupby]
  | cons b t' ih =>
      intro a
      by_cases hb : studentRoomKey b = studentRoomKey a
      · rw [List.takeWhile_cons_of_pos (by simpa using hb),
          List.dropWhile_cons_of_pos (by simpa using hb)]
        have hfun : (fun d => decide (studentRoomKey d = studentRoomKey b))
            = (fun d => decide (studentRoomKey d = studentRoomKey a)) := by
          funext d
          rw [hb]
        rw [pyGroupby, ih b, hfun]
        simp [hb]
      · rw [List.takeWhile_cons_of_neg (by simpa using hb),
          List.dropWhile_cons_of_neg (by simpa using hb)]
        rw [pyGroupby, ih b]
        have hba : ¬ (studentRoomKey a = studentRoomKey b) := fun e => hb e.symm
        simp [hba]

theorem dictCompLookup_pyGroupby_aux (n : Nat) :
    ∀ (l : List Dict), l.length ≤ n → l.Pairwise vLeKey → ∀ (k : Value),
      dictCompLookup (pyGroupby l) k =
        if l.filter (fun d => studentRoomKey d = k) = [] then none
        else some (l.filter (fun d => studentRoomKey d = k)) := by
  induction n with
  | zero =>
      intro l hl hp k
      cases l with
      | nil => simp [pyGroupby, dictCompLookup]
      | cons a t => simp at hl
  | succ n ih =>
      intro l hl hp k
      cases l with
      | nil => simp [pyGroupby, dictCompLookup]
      | cons a t =>
      have hrest_pw :
          (t.dropWhile (fun d => studentRoomKey d = studentRoomKey a)).Pairwise vLeKey :=
        List.Pairwise.sublist (List.dropWhile_sublist _) hp.tail
      have hlen : (t.dropWhile (fun d => studentRoomKey d = studentRoomKey a)).length ≤ n := by
        have h1 := length_dropWhile_le' (fun d => studentRoomKey d = studentRoomKey a) t
        have h2 : t.length ≤ n := by
          simp only [List.length_cons] at hl
          omega
        omega
      have hrec := ih
        (t.dropWhile (fun d => studentRoomKey d = studentRoomKey a)) hlen hrest_pw k
      have hrun : ∀ x ∈ t.takeWhile (fun d => studentRoomKey d = studentRoomKey a),
          studentRoomKey x = studentRoomKey a := by
        intro x hx
        simpa using List.mem_takeWhile_imp hx
      have hrest : ∀ y ∈ t.dropWhile (fun d => studentRoomKey d = studentRoomKey a),
          ¬ (studentRoomKey y = studentRoomKey a) := dropWhileKeyNe a t hp
      have hsplit : t = t.takeWhile (fun d => studentRoomKey d = studentRoomKey a)
          ++ t.dropWhile (fun d => studentRoomKey d = studentRoomKey a) :=
        (List.takeWhile_append_dropWhile _ _).symm
      rw [pyGroupby_cons_span]
      simp only [dictCompLookup]
      rw [hrec]
      by_cases hka : studentRoomKey a = k
      · have hrestf :
            (t.dropWhile (fun d => studentRoomKey d = studentRoomKey a)).filter
              (fun d => studentRoomKey d = k) = [] := by
          rw [List.filter_eq_nil_iff]
          intro y hy
          simp only [decide_eq_true_eq]
          rw [← hka]
          exact hrest y hy
        have hrunf :
            (t.takeWhile (fun d => studentRoomKey d = studentRoomKey a)).filter
              (fun d => studentRoomKey d = k)
            = t.takeWhile (fun d => studentRoomKey d = studentRoomKey a) := by
          rw [List.filter_eq_self]
          intro x hx
          simp only [decide_eq_true_eq]
          rw [← hka]
          exact hrun x hx
        have htf : t.filter (fun d => studentRoomKey d = k)
            = t.takeWhile (fun d => studentRoomKey d = studentRoomKey a) := by
          conv_lhs => rw [hsplit]
          rw [List.filter_append, hrestf, hrunf, List.append_nil]
        rw [hrestf]
        simp [hka, htf, List.filter_cons]
      · have hrunf :
            (t.takeWhile (fun d => studentRoomKey d = studentRoomKey a)).filter
              (fun d => studentRoomKey d = k) = [] := by
          rw [List.filter_eq_nil_iff]
          intro x hx
          simp only [decide_eq_true_eq]
          rw [hrun x hx]
          exact hka
        have htf : t.filter (fun d => studentRoomKey d = k)
            = (t.dropWhile (fun d => studentRoomKey d = studentRoomKey a)).filter
                (fun d => studentRoomKey d = k) := by
          conv_lhs => rw [hsplit]
          rw [List.filter_append, hrunf, List.nil_append]
        have hlf : (a :: t).filter (fun d => studentRoomKey d = k)
            = (t.dropWhile (fun d => studentRoomKey d = studentRoomKey a)).filter
                (fun d => studentRoomKey d = k) := by
          rw [List.filter_cons]
          simp only [hka, decide_eq_true_eq, if_neg]
          exact htf
        rw [hlf]
        by_cases hrf : (t.dropWhile (fun d => studentRoomKey d = studentRoomKey a)).filter
            (fun d => studentRoomKey d = k) = []
        · rw [if_pos hrf]
          simp [hka]
        · rw [if_neg hrf]

theorem dictCompLookup_pyGroupby (l : List Dict) (hp : l.Pairwise vLeKey) (k : Value) :
    dictCompLookup (pyGroupby l) k =
      if l.filter (fun d => studentRoomKey d = k) = [] then none
      else some (l.filter (fun d => studentRoomKey d = k)) :=
  dictCompLookup_pyGroupby_aux l.length l le_rfl hp k

theorem init_ok_iff {rooms students : List Dict} {c : RoomStudentComparerData}
    (h : RoomStudentComparerData.init rooms students = .ok c) :
    pySortedByRoomE students = .ok c.students_data
    ∧ c.rooms_data = rooms ∧ c.preset_compared_data = rooms := by
  unfold RoomStudentComparerData.init at h
  cases hs : pySortedByRoomE students with
  | error e => rw [hs, except_bind_error] at h; exact absurd h (by simp)
  | ok srt =>
      rw [hs, except_bind_ok] at h
      simp only [Except.ok.injEq] at h
      subst h
      exact ⟨rfl, rfl, rfl⟩

theorem preparedGet_char {rooms students : List Dict} {c : RoomStudentComparerData}
    (h : RoomStudentComparerData.init rooms students = .ok c) (k : Value) :
    c.preparedGet k =
      if students.filter (fun d => studentRoomKey d = k) = [] then none
      else some (students.filter (fun d => studentRoomKey d = k)) := by
  obtain ⟨hs, hr, hp⟩ := init_ok_iff h
  unfold RoomStudentComparerData.preparedGet RoomStudentComparerData.prepared_students_data
  rw [dictCompLookup_pyGroupby _ (pySortedByRoomE_pairwise hs) k,
    pySortedByRoomE_filter k hs]

theorem studentsLookupValue_char {rooms students : List Dict} {c : RoomStudentComparerData}
    (h : RoomStudentComparerData.init rooms students = .ok c) (room : Dict) :
    c.studentsLookupValue room = assocValue students (pyGet room "id") := by
  unfold RoomStudentComparerData.studentsLookupValue assocValue
  rw [preparedGet_char h]
  by_cases hf : students.filter (fun d => studentRoomKey d = pyGet room "id") = [] <;>
    simp [hf]

theorem JSONcompare_char {rooms students : List Dict} {c : RoomStudentComparerData}
    (h : RoomStudentComparerData.init rooms students = .ok c) :
    JSONcompare c = rooms.map (fun room =>
      pyUpdate room "students" (assocValue students (pyGet room "id"))) := by
  obtain ⟨hs, hr, hp⟩ := init_ok_iff h
  unfold JSONcompare
  rw [hp]
  refine List.map_congr_left ?_
  intro room _
  rw [studentsLookupValue_char h]

theorem XMLcompare_char {rooms students : List Dict} {c : RoomStudentComparerData}
    (h : RoomStudentComparerData.init rooms students = .ok c) :
    XMLcompare c = rooms.map (fun room =>
      pyUpdate (pyUpdate room "students" (.vdict [])) "students"
        (.vdict [("student", assocValue students (pyGet room "id"))])) := by
  obtain ⟨hs, hr, hp⟩ := init_ok_iff h
  unfold XMLcompare
  rw [hp, List.map_map]
  refine List.map_congr_left ?_
  intro room _
  simp only [Function.comp_apply]
  rw [pyGet_pyUpdate_same]
  rw [studentsLookupValue_char h]
  rw [pyGet_pyUpdate_ne _ _ _ _ (by decide)]
  rfl

/-! Heap lemmas for the frame property of `compare`. -/

theorem deepcopy_next_le (addrs : List Nat) (h : Heap) :
    h.next ≤ (deepcopy h addrs).1.next := by
  induction addrs generalizing h with
  | nil => exact le_rfl
  | cons a rest ih =>
      simp only [deepcopy, Heap.alloc]
      refine le_trans (Nat.le_succ _) ?_
      exact ih ⟨fun x => if x = h.next then h.mem a else h.mem x, h.next + 1⟩

theorem deepcopy_addrs_ge (addrs : List Nat) (h : Heap) :
    ∀ b ∈ (deepcopy h addrs).2, h.next ≤ b := by
  induction addrs generalizing h with
  | nil => simp [deepcopy]
  | cons a rest ih =>
      simp only [deepcopy, Heap.alloc]
      intro b hb
      rcases List.mem_cons.mp hb with rfl | hb2
      · exact le_rfl
      · refine le_trans (Nat.le_succ _) ?_
        exact ih ⟨fun x => if x = h.next then h.mem a else h.mem x, h.next + 1⟩ b hb2

theorem deepcopy_mem_lt (addrs : List Nat) (h : Heap) (a : Nat) (ha : a < h.next) :
    (deepcopy h addrs).1.mem a = h.mem a := by
  induction addrs generalizing h with
  | nil => rfl
  | cons b rest ih =>
      simp only [deepcopy, Heap.alloc]
      rw [ih _ (Nat.lt_succ_of_lt ha)]
      simp only []
      exact if_neg (Nat.ne_of_lt ha)

theorem foldl_write_frame (g : Heap → Nat → Dict) (addrs : List Nat) (h : Heap) (a : Nat)
    (ha : a ∉ addrs) :
    (addrs.foldl (fun h b => h.write b (g h b)) h).mem a = h.mem a := by
  induction addrs generalizing h with
  | nil => rfl
  | cons b rest ih =>
      simp only [List.foldl_cons]
      have hab : a ≠ b := by
        intro e
        exact ha (e ▸ List.mem_cons_self b rest)
      rw [ih _ (fun hmem => ha (List.mem_cons_of_mem _ hmem))]
      simp [Heap.write, hab]

theorem pySortedByRoomE_mixed_error {students : List Dict} (s1 s2 : Dict) (n : Int)
    (h1 : s1 ∈ students) (hk1 : studentRoomKey s1 = .vnull)
    (h2 : s2 ∈ students) (hk2 : studentRoomKey s2 = .vint n) :
    pySortedByRoomE students = .error typeErrorMsg := by
  rcases pySortedByRoomE_ok_or_error students with ⟨m, hm⟩ | herr
  · exfalso
    have hf1 : s1 ∈ m.filter (fun d => studentRoomKey d = Value.vnull) := by
      rw [pySortedByRoomE_filter _ hm]
      rw [List.mem_filter]
      exact ⟨h1, by simp [hk1]⟩
    have hf2 : s2 ∈ m.filter (fun d => studentRoomKey d = Value.vint n) := by
      rw [pySortedByRoomE_filter _ hm]
      rw [List.mem_filter]
      exact ⟨h2, by simp [hk2]⟩
    have hm1 : s1 ∈ m := (List.mem_filter.mp hf1).1
    have hm2 : s2 ∈ m := (List.mem_filter.mp hf2).1
    have hne : s1 ≠ s2 := by
      intro e
      rw [e, hk2] at hk1
      exact Value.noConfusion hk1
    have hpw : m.Pairwise (fun x y => vLeKey x y ∨ vLeKey y x) :=
      (pySortedByRoomE_pairwise hm).imp Or.inl
    have hsym : Symmetric (fun x y : Dict => vLeKey x y ∨ vLeKey y x) := by
      intro x y hxy
      exact hxy.symm
    have := List.Pairwise.forall hsym hpw hm1 hm2 hne
    rcases this with hc | hc <;>
      · unfold vLeKey at hc
        rw [hk1, hk2] at hc
        simp [vLe] at hc
  · exact herr

/-- C5: Neither shape-transform variant mutates the input Room
records: after `__init__` deep-copies the rooms and `compare` mutates the
copies in place, every original room object holds exactly its initial
contents, and the augmented rooms returned (`_preset_compared_data`) are
fresh objects distinct from every input room object. -/
theorem compare_no_mutation (h : Heap) (roomAddrs : List Nat) (students srt : List Dict)
    (hvalid : ∀ a ∈ roomAddrs, a < h.next)
    (hsort : pySortedByRoomE students = .ok srt) :
    ComparerH.init h roomAddrs students
      = .ok ((deepcopy h roomAddrs).1, ⟨roomAddrs, srt, (deepcopy h roomAddrs).2⟩)
    ∧ (∀ a ∈ roomAddrs,
        (jsonCompareH (deepcopy h roomAddrs).1
          ⟨roomAddrs, srt, (deepcopy h roomAddrs).2⟩).mem a = h.mem a)
    ∧ (∀ a ∈ roomAddrs,
        (xmlCompareH (deepcopy h roomAddrs).1
          ⟨roomAddrs, srt, (deepcopy h roomAddrs).2⟩).mem a = h.mem a)
    ∧ (∀ b ∈ (deepcopy h roomAddrs).2, b ∉ roomAddrs) := by
  have hnotin : ∀ a ∈ roomAddrs, a ∉ (deepcopy h roomAddrs).2 := by
    intro a ha hmem
    exact absurd (deepcopy_addrs_ge roomAddrs h a hmem) (Nat.not_le_of_lt (hvalid a ha))
  refine ⟨?_, ?_, ?_, ?_⟩
  · unfold ComparerH.init
    rw [hsort, except_bind_ok]
  · intro a ha
    unfold jsonCompareH
    rw [foldl_write_frame _ _ _ _ (hnotin a ha)]
    exact deepcopy_mem_lt roomAddrs h a (hvalid a ha)
  · intro a ha
    unfold xmlCompareH
    rw [foldl_write_frame _ _ _ _ (hnotin a ha),
      foldl_write_frame _ _ _ _ (hnotin a ha)]
    exact deepcopy_mem_lt roomAddrs h a (hvalid a ha)
  · intro b hb ha
    exact absurd (deepcopy_addrs_ge roomAddrs h b hb) (Nat.not_le_of_lt (hvalid b ha))

theorem getD_map_lt {α β : Type} (f : α → β) (l : List α) (i : Nat) (hi : i < l.length)
    (d1 : α) (d2 : β) : (l.map f).getD i d2 = f (l.getD i d1) := by
  rw [List.getD_eq_getElem?_getD, List.getD_eq_getElem?_getD, List.getElem?_map,
    List.getElem?_eq_getElem hi]
  rfl

/-- C1 counterexample: Room 2 of the example matches no student,
yet the flat transform stores Python `None` (null) under `students` — not
an empty sequence — and the wrapped transform stores `{"student": None}`. -/
theorem c1_empty_association_counterexample :
    (RoomStudentComparerData.init exRooms exStudents).map
        (fun c => pyGet ((JSONcompare c).getD 1 []) "students") = .ok .vnull
    ∧ (RoomStudentComparerData.init exRooms exStudents).map
        (fun c => pyGet ((XMLcompare c).getD 1 []) "students")
        = .ok (.vdict [("student", .vnull)])
    ∧ Value.vnull ≠ Value.vlist [] :=
  ⟨rfl, rfl, by decide⟩

/-- C1 amended: A room whose id matches no student's `room` foreign
key gets a `students` key holding null (`None`): `students: null` in the
flat shape and `students: {student: null}` in the wrapped shape — the key
is present, but its value is null rather than an empty sequence. -/
theorem empty_association_yields_null
    (rooms students : List Dict) (c : RoomStudentComparerData)
    (hinit : RoomStudentComparerData.init rooms students = .ok c)
    (i : Nat) (hi : i < rooms.length)
    (hempty : students.filter
        (fun d => studentRoomKey d = pyGet (rooms.getD i []) "id") = []) :
    pyGet ((JSONcompare c).getD i []) "students" = .vnull
    ∧ pyGet ((XMLcompare c).getD i []) "students" = .vdict [("student", .vnull)] := by
  constructor
  · rw [JSONcompare_char hinit, getD_map_lt _ _ i hi [] [], pyGet_pyUpdate_same]
    unfold assocValue
    rw [if_pos hempty]
  · rw [XMLcompare_char hinit, getD_map_lt _ _ i hi [] [], pyGet_pyUpdate_same]
    unfold assocValue
    rw [if_pos hempty]

/-- Witness for `empty_association_yields_null` at the example input:
room 2 has no students and its `students` value is null in both shapes. -/
theorem empty_association_yields_null_witness :
    RoomStudentComparerData.init exRooms exStudents = .ok exComparer
    ∧ 1 < exRooms.length
    ∧ exStudents.filter
        (fun d => studentRoomKey d = pyGet (exRooms.getD 1 []) "id") = []
    ∧ (pyGet ((JSONcompare exComparer).getD 1 []) "students" = .vnull
       ∧ pyGet ((XMLcompare exComparer).getD 1 []) "students"
           = .vdict [("student", .vnull)]) :=
  ⟨rfl, by decide, rfl,
    empty_association_yields_null exRooms exStudents exComparer rfl 1 (by decide) rfl⟩

/-- C2 counterexample: The flat transform does not project students
to `{id, name}` pairs: Alice's attached record keeps every field,
including `room`; and room 2 (no match) gets null, not an empty
sequence. -/
theorem c2_no_projection_counterexample :
    (RoomStudentComparerData.init exRooms exStudents).map
        (fun c => (JSONcompare c).map (fun r => pyGet r "students"))
      = .ok [.vlist [.vdict exAlice], .vnull]
    ∧ Value.vlist [.vdict exAlice] ≠ .vlist [.vdict (projIdName exAlice)]
    ∧ Value.vnull ≠ .vlist [] :=
  ⟨rfl, by decide, by decide⟩

/-- C2 amended: For every room in the input sequence, the flat
transform sets `students` to the association-index lookup of the room's
id — the full matching student records of the input sequence in input
order, with no field stripped — and to null (`None`), not an empty
sequence, when the lookup has no entry. -/
theorem flat_transform_students_field
    (rooms students : List Dict) (c : RoomStudentComparerData)
    (hinit : RoomStudentComparerData.init rooms students = .ok c) :
    JSONcompare c = rooms.map (fun room =>
      pyUpdate room "students" (assocValue students (pyGet room "id"))) :=
  JSONcompare_char hinit

/-- Witness for `flat_transform_students_field` at the example input. -/
theorem flat_transform_students_field_witness :
    RoomStudentComparerData.init exRooms exStudents = .ok exComparer
    ∧ JSONcompare exComparer = exRooms.map (fun room =>
        pyUpdate room "students" (assocValue exStudents (pyGet room "id"))) :=
  ⟨rfl, flat_transform_students_field exRooms exStudents exComparer rfl⟩

/-- C3: The association index preserves encounter order per room: for
every room id, the index entry equals the subsequence of the input
student sequence whose `room` equals that id, in the input's original
order (the internal stable sort by room key never reorders students
within one room); a missing entry means no student matches. -/
theorem per_room_order_is_encounter_order
    (rooms students : List Dict) (c : RoomStudentComparerData)
    (hinit : RoomStudentComparerData.init rooms students = .ok c) (rid : Value) :
    (∀ g, c.preparedGet rid = some g →
        g = students.filter (fun d => studentRoomKey d = rid))
    ∧ (c.preparedGet rid = none →
        students.filter (fun d => studentRoomKey d = rid) = []) := by
  have hchar := preparedGet_char hinit rid
  by_cases hf : students.filter (fun d => studentRoomKey d = rid) = []
  · rw [if_pos hf] at hchar
    refine ⟨?_, fun _ => hf⟩
    intro g hg
    rw [hchar] at hg
    exact absurd hg (by simp)
  · rw [if_neg hf] at hchar
    refine ⟨?_, ?_⟩
    · intro g hg
      rw [hchar] at hg
      exact (Option.some.inj hg).symm
    · intro hn
      rw [hchar] at hn
      exact absurd hn (by simp)

/-- Witness for `per_room_order_is_encounter_order`: with students Alice
(room 1), Bob (room 2), Carl (room 1), room 1's entry is `[Alice, Carl]`
in encounter order even though the sort interleaved Bob between them in
the input. -/
theorem per_room_order_is_encounter_order_witness :
    RoomStudentComparerData.init exRooms exStudents3 = .ok exComparer3
    ∧ exComparer3.preparedGet (Value.vint 1) = some [exAlice, exCarl]
    ∧ ((∀ g, exComparer3.preparedGet (Value.vint 1) = some g →
          g = exStudents3.filter (fun d => studentRoomKey d = Value.vint 1))
       ∧ (exComparer3.preparedGet (Value.vint 1) = none →
          exStudents3.filter (fun d => studentRoomKey d = Value.vint 1) = [])) :=
  ⟨rfl, rfl,
    per_room_order_is_encounter_order exRooms exStudents3 exComparer3 rfl (Value.vint 1)⟩

/-- C9 counterexample: Extracting `{id, name}` projections from the
(trusted-codec) decoded flat output does not reproduce the association
index's per-room contents: the index entry for room 1 holds Alice's full
record (with `room`), which differs from its `{id, name}` projection. -/
theorem c9_projection_roundtrip_counterexample :
    (RoomStudentComparerData.init exRooms exStudents).map
        (fun c => c.preparedGet (Value.vint 1)) = .ok (some [exAlice])
    ∧ (RoomStudentComparerData.init exRooms exStudents).map
        (fun c => pyGet ((JSONcompare c).getD 0 []) "students")
        = .ok (.vlist [.vdict exAlice])
    ∧ [projIdName exAlice] ≠ [exAlice] :=
  ⟨rfl, rfl, by decide⟩

/-- C9 amended: The JSON codec being a trusted external collaborator
(decoding its own encoding is the identity), the round trip reduces to
this structural fact: for every room whose id has an association-index
entry, the list found under `students` in the flat output is exactly that
index entry — the full student records, with no `{id, name}` projection
applied. -/
theorem flat_output_reproduces_index
    (rooms students : List Dict) (c : RoomStudentComparerData)
    (hinit : RoomStudentComparerData.init rooms students = .ok c)
    (i : Nat) (hi : i < rooms.length) (g : List Dict)
    (hg : c.preparedGet (pyGet (rooms.getD i []) "id") = some g) :
    pyGet ((JSONcompare c).getD i []) "students" = .vlist (g.map .vdict) := by
  rw [JSONcompare_char hinit, getD_map_lt _ _ i hi [] [], pyGet_pyUpdate_same]
  rw [preparedGet_char hinit] at hg
  unfold assocValue
  by_cases hf : students.filter
      (fun d => studentRoomKey d = pyGet (rooms.getD i []) "id") = []
  · rw [if_pos hf] at hg
    exact absurd hg (by simp)
  · rw [if_neg hf] at hg
    rw [if_neg hf, Option.some.inj hg]

/-- Witness for `flat_output_reproduces_index` at the example input:
room 1's output list is exactly the index entry `[Alice]`. -/
theorem flat_output_reproduces_index_witness :
    RoomStudentComparerData.init exRooms exStudents = .ok exComparer
    ∧ 0 < exRooms.length
    ∧ exComparer.preparedGet (pyGet (exRooms.getD 0 []) "id") = some [exAlice]
    ∧ pyGet ((JSONcompare exComparer).getD 0 []) "students"
        = .vlist ([exAlice].map .vdict) :=
  ⟨rfl, by decide, rfl,
    flat_output_reproduces_index exRooms exStudents exComparer rfl 0 (by decide)
      [exAlice] rfl⟩

/-- C10: Building the comparer is total only when all students'
`room` values are mutually comparable under one ordering: if one student
lacks the `room` key (its lookup yields `None`) while another holds an
integer, the initial sort of the student sequence raises `TypeError`
inside `__init__`, before any association is produced. -/
theorem init_mixed_room_keys_type_error
    (rooms students : List Dict) (s1 s2 : Dict) (n : Int)
    (h1 : s1 ∈ students) (hk1 : studentRoomKey s1 = .vnull)
    (h2 : s2 ∈ students) (hk2 : studentRoomKey s2 = .vint n) :
    RoomStudentComparerData.init rooms students = .error typeErrorMsg := by
  unfold RoomStudentComparerData.init
  rw [pySortedByRoomE_mixed_error s1 s2 n h1 hk1 h2 hk2, except_bind_error]

/-- Witness for `init_mixed_room_keys_type_error`: Dana has no `room`
key, Alice's is the integer 1, and `__init__` fails with `TypeError`. -/
theorem init_mixed_room_keys_type_error_witness :
    exNoRoom ∈ ([exNoRoom, exAlice] : List Dict)
    ∧ studentRoomKey exNoRoom = .vnull
    ∧ exAlice ∈ ([exNoRoom, exAlice] : List Dict)
    ∧ studentRoomKey exAlice = .vint 1
    ∧ RoomStudentComparerData.init exRooms [exNoRoom, exAlice] = .error typeErrorMsg :=
  ⟨by decide, rfl, by decide, rfl,
    init_mixed_room_keys_type_error exRooms [exNoRoom, exAlice] exNoRoom exAlice 1
      (by decide) rfl (by decide) rfl⟩

theorem getD_eq_getElem_lt {α : Type} (l : List α) (i : Nat) (d : α)
    (hi : i < l.length) : l.getD i d = l[i] := by
  rw [List.getD_eq_getElem?_getD, List.getElem?_eq_getElem hi]
  rfl

/-- C6: The flat and wrapped transforms agree on every comparer
state: for each room, the value directly under `students` in the flat
output equals the value under `students.student` in the wrapped output —
the same ordered student list (or the same null). Identical inputs build
identical comparer states, so the two variants are structurally
consistent. -/
theorem flat_wrapped_transforms_agree (c : RoomStudentComparerData) :
    (JSONcompare c).map (fun r => pyGet r "students")
      = (XMLcompare c).map (fun r => wrappedStudentOf r) := by
  unfold JSONcompare XMLcompare wrappedStudentOf
  simp only [List.map_map]
  refine List.map_congr_left ?_
  intro room _
  simp only [Function.comp_apply]
  simp only [pyGet_pyUpdate_same, dictValUpdate]
  have hs : ∀ v : Value, pyGet [("student", v)] "student" = v := fun v => rfl
  show c.studentsLookupValue room
      = pyGet [("student", c.studentsLookupValue (pyUpdate room "students" (Value.vdict [])))]
          "student"
  rw [hs]
  unfold RoomStudentComparerData.studentsLookupValue
  rw [pyGet_pyUpdate_ne _ _ _ _ (by decide)]

/-- C7: The tree-encoding serializer encloses its whole output in one
root element literally named `rooms`, and each room of the sequence is
emitted as one element tagged literally `room` (the rendering of the
per-room body by the external dict2xml library is modelled from the
spec). -/
theorem xml_serializer_root_and_item_tags (data : List Dict) :
    XMLRoomStudentSerializer.serialize data
      = "<rooms>\n"
        ++ String.intercalate "\n"
            (data.map (fun d => "<room>" ++ renderEntries d ++ "</room>"))
        ++ "\n</rooms>" := by
  unfold XMLRoomStudentSerializer.serialize dict2xml
  refine congrArg (fun s => "<rooms>\n" ++ s ++ "\n</rooms>") ?_
  refine congrArg (String.intercalate "\n") ?_
  refine List.map_congr_left ?_
  intro d _
  simp only [String.append_assoc]
  rfl

/-- C8: A requested output format outside `{"json", "xml"}` makes
pipeline construction fail with the configuration `ValueError` raised by
the validating descriptor; the result is the same error for every
filesystem and any paths, so the failure precedes — and is independent
of — any input file being opened or read. -/
theorem unsupported_format_fails_before_io
    (output_format : String) (hfmt : output_format ∉ supported_output_formats)
    (fs : FileSystem) (path_to_rooms path_to_students : String) :
    writeOutputFile fs path_to_rooms path_to_students output_format
      = .error ("Unknown output format '" ++ output_format ++ "'. Use json or xml.") := by
  unfold writeOutputFile RoomStudentFileHandler.init RoomStudentFileFactory.init
    RoomStudentOutputFormat.set
  rw [if_neg hfmt]
  rfl

/-- Witness for `unsupported_format_fails_before_io`: requesting "yaml"
fails with the configuration error on an empty filesystem. -/
theorem unsupported_format_fails_before_io_witness :
    "yaml" ∉ supported_output_formats
    ∧ writeOutputFile (fun _ => none) "rooms.json" "students.json" "yaml"
        = .error ("Unknown output format '" ++ "yaml" ++ "'. Use json or xml.") :=
  ⟨by decide,
    unsupported_format_fails_before_io "yaml" (by decide) (fun _ => none)
      "rooms.json" "students.json"⟩

/-- Witness for `compare_no_mutation`: with the two example rooms at heap
addresses 0 and 1, both compares leave the originals untouched and the
preset copies live at fresh addresses. -/
theorem compare_no_mutation_witness :
    (∀ a ∈ ([0, 1] : List Nat), a < exHeap.next)
    ∧ pySortedByRoomE exStudents = .ok [exAlice]
    ∧ (ComparerH.init exHeap [0, 1] exStudents
        = .ok ((deepcopy exHeap [0, 1]).1,
            ⟨[0, 1], [exAlice], (deepcopy exHeap [0, 1]).2⟩)
      ∧ (∀ a ∈ ([0, 1] : List Nat),
          (jsonCompareH (deepcopy exHeap [0, 1]).1
            ⟨[0, 1], [exAlice], (deepcopy exHeap [0, 1]).2⟩).mem a = exHeap.mem a)
      ∧ (∀ a ∈ ([0, 1] : List Nat),
          (xmlCompareH (deepcopy exHeap [0, 1]).1
            ⟨[0, 1], [exAlice], (deepcopy exHeap [0, 1]).2⟩).mem a = exHeap.mem a)
      ∧ (∀ b ∈ (deepcopy exHeap [0, 1]).2, b ∉ ([0, 1] : List Nat))) :=
  ⟨by decide, rfl,
    compare_no_mutation exHeap [0, 1] exStudents [exAlice] (by decide) rfl⟩

/-- C4: When the rooms carry distinct ids, every student of the input
appears in the flat output's association of exactly one room if its
`room` value equals some room's id, and in no room's association
otherwise: no student lands in two rooms' lists and no student whose
`room` matches a room id is dropped. -/
theorem student_in_exactly_one_room
    (rooms students : List Dict) (c : RoomStudentComparerData)
    (hinit : RoomStudentComparerData.init rooms students = .ok c)
    (hids : (rooms.map (fun r => pyGet r "id")).Nodup)
    (s : Dict) (hs : s ∈ students) :
    (pyGet s "room" ∈ rooms.map (fun r => pyGet r "id") →
      ∃ i : Nat, i < rooms.length
        ∧ containsStudent ((JSONcompare c).getD i []) s
        ∧ ∀ j : Nat, j < rooms.length →
            containsStudent ((JSONcompare c).getD j []) s → j = i)
    ∧ (pyGet s "room" ∉ rooms.map (fun r => pyGet r "id") →
      ∀ j : Nat, j < rooms.length →
        ¬ containsStudent ((JSONcompare c).getD j []) s) := by
  have hJ := JSONcompare_char hinit
  have hget : ∀ j : Nat, j < rooms.length →
      (JSONcompare c).getD j []
        = pyUpdate (rooms.getD j []) "students"
            (assocValue students (pyGet (rooms.getD j []) "id")) := by
    intro j hj
    rw [hJ, getD_map_lt _ _ j hj [] []]
  have hkey : ∀ room : Dict,
      containsStudent
          (pyUpdate room "students" (assocValue students (pyGet room "id"))) s
        ↔ pyGet s "room" = pyGet room "id" := by
    intro room
    unfold containsStudent
    rw [pyGet_pyUpdate_same]
    unfold assocValue
    by_cases hf : students.filter (fun d => studentRoomKey d = pyGet room "id") = []
    · rw [if_pos hf]
      constructor
      · rintro ⟨l, hl, -⟩
        exact absurd hl (by simp)
      · intro hk
        exfalso
        have hmem : s ∈ students.filter (fun d => studentRoomKey d = pyGet room "id") :=
          List.mem_filter.mpr ⟨hs, by simpa [studentRoomKey] using hk⟩
        rw [hf] at hmem
        exact absurd hmem (List.not_mem_nil s)
    · rw [if_neg hf]
      constructor
      · rintro ⟨l, hl, hmem⟩
        injection hl with hleq
        rw [← hleq] at hmem
        rcases List.mem_map.mp hmem with ⟨t, htmem, hteq⟩
        injection hteq with hts
        rw [hts] at htmem
        have := (List.mem_filter.mp htmem).2
        simpa [studentRoomKey] using this
      · intro hk
        refine ⟨(students.filter
            (fun d => studentRoomKey d = pyGet room "id")).map .vdict, rfl, ?_⟩
        exact List.mem_map.mpr
          ⟨s, List.mem_filter.mpr ⟨hs, by simpa [studentRoomKey] using hk⟩, rfl⟩
  constructor
  · intro hmem
    rcases List.mem_iff_getElem.mp hmem with ⟨i, hilen, hieq⟩
    have hi : i < rooms.length := by simpa using hilen
    have hid : pyGet (rooms.getD i []) "id" = pyGet s "room" := by
      rw [getD_eq_getElem_lt rooms i [] hi]
      rw [List.getElem_map] at hieq
      exact hieq
    refine ⟨i, hi, ?_, ?_⟩
    · rw [hget i hi, hkey]
      exact hid.symm
    · intro j hj hcont
      rw [hget j hj, hkey] at hcont
      have hjd : pyGet (rooms.getD j []) "id" = pyGet s "room" := hcont.symm
      have hj2 : j < (rooms.map (fun r => pyGet r "id")).length := by simpa using hj
      have hi2 : i < (rooms.map (fun r => pyGet r "id")).length := by simpa using hi
      have hij : (rooms.map (fun r => pyGet r "id"))[j]
          = (rooms.map (fun r => pyGet r "id"))[i] := by
        rw [List.getElem_map, List.getElem_map]
        rw [← getD_eq_getElem_lt rooms j [] hj, ← getD_eq_getElem_lt rooms i [] hi]
        rw [hjd, hid]
      exact hids.getElem_inj_iff.mp hij
  · intro hnot j hj hcont
    rw [hget j hj, hkey] at hcont
    apply hnot
    rw [hcont]
    refine List.mem_map.mpr ⟨rooms.getD j [], ?_, rfl⟩
    rw [getD_eq_getElem_lt rooms j [] hj]
    exact List.getElem_mem hj

/-- Witness for `student_in_exactly_one_room`: in the example output,
Alice (room 1) appears in exactly one room's association. -/
theorem student_in_exactly_one_room_witness :
    RoomStudentComparerData.init exRooms exStudents3 = .ok exComparer3
    ∧ (exRooms.map (fun r => pyGet r "id")).Nodup
    ∧ exAlice ∈ exStudents3
    ∧ ((pyGet exAlice "room" ∈ exRooms.map (fun r => pyGet r "id") →
        ∃ i : Nat, i < exRooms.length
          ∧ containsStudent ((JSONcompare exComparer3).getD i []) exAlice
          ∧ ∀ j : Nat, j < exRooms.length →
              containsStudent ((JSONcompare exComparer3).getD j []) exAlice → j = i)
      ∧ (pyGet exAlice "room" ∉ exRooms.map (fun r => pyGet r "id") →
        ∀ j : Nat, j < exRooms.length →
          ¬ containsStudent ((JSONcompare exComparer3).getD j []) exAlice)) :=
  ⟨rfl, by decide, by decide,
    student_in_exactly_one_room exRooms exStudents3 exComparer3 rfl (by decide)
      exAlice (by decide)⟩
